import Mathlib

/-!
Verification development for the kick_script broadcast tool.

The TypeScript sources are embedded shallowly: pure computations become Lean
functions, the stateful concurrent broadcast loops become an explicit
step function over a configuration type driven by an environment (the
stop-callback observations and the per-identity transport outcomes) and a
schedule (the interleaving of the worker lanes).  Machine numbers in the
sources are JavaScript numbers used only as non-negative counters and
millisecond durations, so they are modelled as `Nat`.
-/

namespace KickScript

/-! ### RetryHandler (src/utils/retry-handler.ts)

`RetryConfig` and `RetryHandler.execute` translated from the source.  The
asynchronous operation is modelled as a function from the attempt number
(1-based, as in the source loop) to an `Except` outcome; the `await
this.delay(currentDelay)` calls are recorded in an explicit list of waited
durations so that the backoff schedule is observable. -/

structure RetryConfig where
  maxAttempts : Nat
  delayMs : Nat
  backoffMultiplier : Nat
  maxDelayMs : Nat
deriving DecidableEq, Repr

/-- `RetryHandler.defaultConfig` from src/utils/retry-handler.ts lines 12-17. -/
def defaultConfig : RetryConfig :=
  { maxAttempts := 3, delayMs := 1000, backoffMultiplier := 2, maxDelayMs := 10000 }

/-- The body of the `for (let attempt = 1; attempt <= maxAttempts; attempt++)`
loop of `RetryHandler.execute`.  `fuel` is the number of attempts still
allowed including the current one (`maxAttempts - attempt + 1`), so the
source guard `attempt < maxAttempts` is `fuel ≠ 1`, i.e. the remaining fuel
after the current attempt is nonzero.  `last` models `lastError` (the source
throws `undefined` when the loop never runs, modelled by the initial value).
The second component collects the durations waited between attempts. -/
def executeGo {T : Type} (op : Nat → Except String T) (cfg : RetryConfig) :
    Nat → Nat → Nat → List Nat → String → Except String T × List Nat
  | _, 0, _, waits, last => (.error last, waits)
  | attempt, fuel + 1, currentDelay, waits, _ =>
    match op attempt with
    | .ok v => (.ok v, waits)
    | .error e =>
      if fuel = 0 then
        (.error e, waits)
      else
        executeGo op cfg (attempt + 1) fuel
          (min (currentDelay * cfg.backoffMultiplier) cfg.maxDelayMs)
          (waits ++ [currentDelay]) e

/-- `RetryHandler.execute` (src/utils/retry-handler.ts lines 23-62):
attempt 1 runs immediately, `currentDelay` starts at `config.delayMs`. -/
def execute {T : Type} (op : Nat → Except String T) (cfg : RetryConfig) :
    Except String T × List Nat :=
  executeGo op cfg 1 cfg.maxAttempts cfg.delayMs [] "undefined"

/-- The source's delay sequence: `delaySeq cfg n` is the value of
`currentDelay` before the `(n+1)`-th wait, i.e. `delayMs` then repeatedly
`min (d * backoffMultiplier) maxDelayMs`. -/
def delaySeq (cfg : RetryConfig) : Nat → Nat
  | 0 => cfg.delayMs
  | n + 1 => min (delaySeq cfg n * cfg.backoffMultiplier) cfg.maxDelayMs

/-- The waits performed by `executeGo` starting from current delay `d`,
`m` waits in a row. -/
def waitsFrom (cfg : RetryConfig) (d : Nat) : Nat → List Nat
  | 0 => []
  | m + 1 => d :: waitsFrom cfg (min (d * cfg.backoffMultiplier) cfg.maxDelayMs) m

lemma waitsFrom_delaySeq (cfg : RetryConfig) :
    ∀ m j, waitsFrom cfg (delaySeq cfg j) m
      = (List.range m).map (fun i => delaySeq cfg (j + i)) := by
  intro m
  induction m with
  | zero => intro j; simp [waitsFrom]
  | succ m ih =>
    intro j
    rw [List.range_succ_eq_map]
    simp only [waitsFrom, List.map_cons, Nat.add_zero]
    congr 1
    rw [show min (delaySeq cfg j * cfg.backoffMultiplier) cfg.maxDelayMs
          = delaySeq cfg (j + 1) from rfl, ih (j + 1), List.map_map]
    apply List.map_congr_left
    intro i _
    simp only [Function.comp_apply]
    congr 1
    omega

lemma executeGo_succeeds {T : Type} (op : Nat → Except String T) (cfg : RetryConfig) :
    ∀ (fuel attempt d : Nat) (ws : List Nat) (last : String) (k : Nat) (v : T),
      attempt ≤ k → k < attempt + fuel →
      (∀ i, attempt ≤ i → i < k → ∃ e, op i = .error e) →
      op k = .ok v →
      executeGo op cfg attempt fuel d ws last = (.ok v, ws ++ waitsFrom cfg d (k - attempt)) := by
  intro fuel
  induction fuel with
  | zero => intro attempt d ws last k v h1 h2 _ _; omega
  | succ fuel ih =>
    intro attempt d ws last k v h1 h2 hfail hok
    by_cases hak : attempt = k
    · subst hak
      simp [executeGo, hok, waitsFrom]
    · have hlt : attempt < k := lt_of_le_of_ne h1 hak
      obtain ⟨e, he⟩ := hfail attempt le_rfl hlt
      have hfuel : fuel ≠ 0 := by omega
      simp only [executeGo, he, hfuel, if_false]
      rw [ih (attempt + 1) (min (d * cfg.backoffMultiplier) cfg.maxDelayMs)
          (ws ++ [d]) e k v (by omega) (by omega)
          (fun i hi1 hi2 => hfail i (by omega) hi2) hok]
      have hk : k - attempt = (k - (attempt + 1)) + 1 := by omega
      rw [hk]
      simp [waitsFrom]

lemma executeGo_exhausts {T : Type} (op : Nat → Except String T) (cfg : RetryConfig) :
    ∀ (fuel attempt d : Nat) (ws : List Nat) (last : String) (e : String),
      1 ≤ fuel →
      (∀ i, attempt ≤ i → i < attempt + fuel → ∃ er, op i = .error er) →
      op (attempt + fuel - 1) = .error e →
      executeGo op cfg attempt fuel d ws last = (.error e, ws ++ waitsFrom cfg d (fuel - 1)) := by
  intro fuel
  induction fuel with
  | zero => intro _ _ _ _ _ h; omega
  | succ fuel ih =>
    intro attempt d ws last e _ hfail hlast
    by_cases hf0 : fuel = 0
    · subst hf0
      have : op attempt = .error e := by simpa using hlast
      simp [executeGo, this, waitsFrom]
    · obtain ⟨e0, he0⟩ := hfail attempt le_rfl (by omega)
      have hstep : executeGo op cfg attempt (fuel + 1) d ws last
          = executeGo op cfg (attempt + 1) fuel
              (min (d * cfg.backoffMultiplier) cfg.maxDelayMs) (ws ++ [d]) e0 := by
        simp [executeGo, he0, hf0]
      rw [hstep, ih (attempt + 1) (min (d * cfg.backoffMultiplier) cfg.maxDelayMs)
          (ws ++ [d]) e0 e (by omega)
          (fun i hi1 hi2 => hfail i (by omega) (by omega))
          (by have h : attempt + 1 + fuel - 1 = attempt + (fuel + 1) - 1 := by omega
              rw [h]; exact hlast)]
      have h1 : (fuel + 1) - 1 = (fuel - 1) + 1 := by omega
      rw [h1]
      simp [waitsFrom]

/-- C5: `RetryHandler.execute` runs attempt 1 immediately (no wait precedes a
first-attempt success); on each failure before the last attempt it waits the
current delay — the delays being `delayMs`, then repeatedly
`min (delay * backoffMultiplier) maxDelayMs` — and a success on attempt `k`
returns that attempt's value having waited exactly the first `k - 1` delays
of that schedule; after `maxAttempts` failures it fails with the last
attempt's error. -/
theorem retryHandler_execute_spec {T : Type} (op : Nat → Except String T)
    (cfg : RetryConfig) (h1 : 1 ≤ cfg.maxAttempts) :
    (∀ k v, 1 ≤ k → k ≤ cfg.maxAttempts →
      (∀ i, 1 ≤ i → i < k → ∃ e, op i = .error e) → op k = .ok v →
      execute op cfg = (.ok v, (List.range (k - 1)).map (delaySeq cfg)))
    ∧ (∀ e, (∀ i, 1 ≤ i → i < cfg.maxAttempts → ∃ er, op i = .error er) →
      op cfg.maxAttempts = .error e →
      execute op cfg = (.error e, (List.range (cfg.maxAttempts - 1)).map (delaySeq cfg))) := by
  constructor
  · intro k v hk1 hk hfail hok
    rw [execute, executeGo_succeeds op cfg cfg.maxAttempts 1 cfg.delayMs [] "undefined"
        k v hk1 (by omega) hfail hok]
    rw [show cfg.delayMs = delaySeq cfg 0 from rfl, waitsFrom_delaySeq cfg (k - 1) 0]
    simp
  · intro e hfail hlast
    rw [execute, executeGo_exhausts op cfg cfg.maxAttempts 1 cfg.delayMs [] "undefined" e h1
        (fun i hi1 hi2 => by
          by_cases h : i = cfg.maxAttempts
          · exact ⟨e, h ▸ hlast⟩
          · exact hfail i hi1 (by omega))
        (by rw [show 1 + cfg.maxAttempts - 1 = cfg.maxAttempts by omega]; exact hlast)]
    rw [show cfg.delayMs = delaySeq cfg 0 from rfl, waitsFrom_delaySeq cfg (cfg.maxAttempts - 1) 0]
    simp

/-- Witness for C5: an operation failing twice then succeeding, with
maxAttempts 3, initial delay 100, multiplier 2, succeeds on the third
attempt having waited 100 then 200. -/
theorem retryHandler_execute_spec_witness :
    execute (fun i => if i < 3 then Except.error "boom" else Except.ok (42 : Nat))
        { maxAttempts := 3, delayMs := 100, backoffMultiplier := 2, maxDelayMs := 8000 }
      = (.ok 42, [100, 200]) := by
  rw [(retryHandler_execute_spec
        (fun i => if i < 3 then Except.error "boom" else Except.ok (42 : Nat))
        { maxAttempts := 3, delayMs := 100, backoffMultiplier := 2, maxDelayMs := 8000 }
        (by norm_num)).1 3 42 (by norm_num) (by norm_num)
      (fun i hi1 hi2 => ⟨"boom", by simp [hi2]⟩) (by norm_num)]
  rfl

/-! ### KickSender (src/controllers/kick-sender.controller.ts)

`UserConfig` and `SendMessageResponse` from src/types/interfaces.ts.  The
axios POST inside `sendMessage` either resolves with a response body (2xx)
or rejects with an error carrying the optional fields
`error.response?.data?.message` and `error.message` — both thrown transport
errors and non-2xx HTTP responses reject in axios, so a single
`Except AxiosErrorInfo String` value covers every transport outcome. -/

structure UserConfig where
  username : String
  accessToken : String
  userAgent : Option String
  proxy : Option String
deriving DecidableEq, Repr

structure SendMessageResponse where
  success : Bool
  data : Option String := none
  error : Option String := none
deriving DecidableEq, Repr

structure AxiosErrorInfo where
  respDataMessage : Option String
  message : Option String
deriving DecidableEq, Repr

/-- JavaScript `a || b` for an optional string `a` (absent and empty strings
are falsy). -/
def jsOr (a : Option String) (b : String) : String :=
  match a with
  | none => b
  | some s => if s = "" then b else s

/-- The error text `error.response?.data?.message || error.message ||
'Unknown error'` from src/controllers/kick-sender.controller.ts line 44. -/
def axiosErrorMsg (e : AxiosErrorInfo) : String :=
  jsOr e.respDataMessage (jsOr e.message "Unknown error")

/-- `KickSender.sendMessage` (src/controllers/kick-sender.controller.ts lines
25-53): a single awaited POST; a resolved response becomes a success result,
any rejection is caught and converted into `{ success: false, error }` with
the error text prefixed `User: <username> - `.  `chatId` and `message` only
shape the HTTP request and do not influence the result structure. -/
def sendMessage (config : UserConfig) (chatId message : String)
    (outcome : Except AxiosErrorInfo String) : SendMessageResponse :=
  match outcome with
  | .ok data => { success := true, data := some data }
  | .error e =>
    { success := false
      error := some ("User: " ++ config.username ++ " - " ++ axiosErrorMsg e) }

/-- C7: `KickSender.sendMessage` never throws — it is total over every
destination, message and transport outcome, a resolved response yields a
success result carrying the response data, and every rejection (thrown
transport error or non-2xx response, which axios surfaces as a rejection) is
converted into `{ success: false, error }` whose error text is prefixed with
the sending identity's username in the form `User: <username> - <cause>`. -/
theorem kickSender_sendMessage_never_throws :
    ∀ (config : UserConfig) (chatId message : String)
      (outcome : Except AxiosErrorInfo String),
      (∀ d, outcome = .ok d →
        sendMessage config chatId message outcome
          = { success := true, data := some d, error := none })
      ∧ (∀ e, outcome = .error e →
        (sendMessage config chatId message outcome).success = false
        ∧ (sendMessage config chatId message outcome).error
            = some ("User: " ++ config.username ++ " - " ++ axiosErrorMsg e)) := by
  intro config chatId message outcome
  constructor
  · rintro d rfl
    rfl
  · rintro e rfl
    exact ⟨rfl, rfl⟩

/-- Witness for C7: a concrete rejected send is converted into an
attributed failure result. -/
theorem kickSender_sendMessage_never_throws_witness :
    (sendMessage ⟨"alice", "t", none, none⟩ "c" "m"
        (.error ⟨none, some "timeout"⟩)).success = false
    ∧ (sendMessage ⟨"alice", "t", none, none⟩ "c" "m"
        (.error ⟨none, some "timeout"⟩)).error
      = some ("User: " ++ "alice" ++ " - " ++ axiosErrorMsg ⟨none, some "timeout"⟩) :=
  (kickSender_sendMessage_never_throws ⟨"alice", "t", none, none⟩ "c" "m"
    (.error ⟨none, some "timeout"⟩)).2 ⟨none, some "timeout"⟩ rfl

/-- Counterexample for C6: `KickSender.sendMessage` consults a single
transport outcome — a transiently failing call (which a retry would turn
into a success) is reported as a failure — while the retry policy the claim
describes (`maxAttempts 3, delay 1000, multiplier 2, maxDelay 8000`) would
succeed on the second attempt; moreover the repository's
`RetryHandler.defaultConfig` caps the delay at 10000 ms, not 8000 ms. -/
theorem kickSender_no_retry_counterexample :
    (sendMessage
        { username := "alice", accessToken := "t", userAgent := none, proxy := none }
        "123" "hi" (.error { respDataMessage := none, message := some "timeout" })).success
      = false
    ∧ (execute (fun i => if i = 1 then Except.error "timeout" else Except.ok "sent")
        { maxAttempts := 3, delayMs := 1000, backoffMultiplier := 2, maxDelayMs := 8000 }).1
      = .ok "sent"
    ∧ defaultConfig.maxDelayMs = 10000 := by
  refine ⟨rfl, ?_, rfl⟩
  rfl

/-- C6 amended: `KickSender.sendMessage` performs exactly one network
attempt with no retry wrapper — any single rejection is immediately reported
as a failure result — and the repository's `RetryHandler.defaultConfig` is
`{maxAttempts 3, delayMs 1000, backoffMultiplier 2, maxDelayMs 10000}`
(it is applied by the standalone entry point around a whole broadcast, not
inside the sender). -/
theorem kickSender_single_attempt :
    (∀ (config : UserConfig) (chatId message : String) (e : AxiosErrorInfo),
      (sendMessage config chatId message (.error e)).success = false)
    ∧ defaultConfig
        = { maxAttempts := 3, delayMs := 1000, backoffMultiplier := 2, maxDelayMs := 10000 } := by
  exact ⟨fun _ _ _ _ => rfl, rfl⟩

/-! ### KickSender.getUserConfig / updateUserAgent (lines 55-67)

JavaScript objects are references into a heap, so to distinguish the
source's `return { ...this.config }` (a field-by-field copy into a fresh
object) from returning the stored reference, the config objects live in an
explicit heap: addresses are naturals, `alloc` places a value at the next
fresh address. -/

structure Heap where
  store : Nat → UserConfig
  next : Nat

def Heap.alloc (h : Heap) (c : UserConfig) : Nat × Heap :=
  (h.next,
   { store := fun a => if a = h.next then c else h.store a, next := h.next + 1 })

/-- An in-place field mutation of the object at address `a`. -/
def Heap.write (h : Heap) (a : Nat) (f : UserConfig → UserConfig) : Heap :=
  { h with store := fun x => if x = a then f (h.store x) else h.store x }

/-- `getUserConfig` (src/controllers/kick-sender.controller.ts lines 65-67):
`return { ...this.config }` — the stored config's fields are copied into a
freshly allocated object whose address is returned.  `configAddr` is the
address of the sender's own `this.config`. -/
def getUserConfig (h : Heap) (configAddr : Nat) : Nat × Heap :=
  h.alloc (h.store configAddr)

/-- `updateUserAgent` (lines 55-59): `this.config.userAgent = userAgent`
mutates the stored config object in place; the axios header update touches
the axios instance, not the config object. -/
def updateUserAgent (h : Heap) (configAddr : Nat) (userAgent : String) : Heap :=
  h.write configAddr (fun c => { c with userAgent := some userAgent })

/-- C10: `getUserConfig` returns a copy — its result is a fresh address
holding the same field values, and mutating the returned object (any field
update `f`) leaves the sender's stored config unchanged; `updateUserAgent`
changes only the `userAgent` field of the stored config, leaving `username`,
`accessToken` and `proxy` as they were. -/
theorem kickSender_getUserConfig_frame (h : Heap) (configAddr : Nat)
    (hlt : configAddr < h.next) (f : UserConfig → UserConfig) (ua : String) :
    (getUserConfig h configAddr).2.store (getUserConfig h configAddr).1
        = h.store configAddr
    ∧ ((getUserConfig h configAddr).2.write (getUserConfig h configAddr).1 f).store
        configAddr = h.store configAddr
    ∧ (updateUserAgent h configAddr ua).store configAddr
        = { h.store configAddr with userAgent := some ua } := by
  have hne : configAddr ≠ h.next := Nat.ne_of_lt hlt
  refine ⟨?_, ?_, ?_⟩
  · simp [getUserConfig, Heap.alloc]
  · simp [getUserConfig, Heap.alloc, Heap.write, hne]
  · simp [updateUserAgent, Heap.write]

/-- Witness for C10 on a one-object heap: after `updateUserAgent` only the
`userAgent` field of the stored config differs. -/
theorem kickSender_getUserConfig_frame_witness :
    0 < (1 : Nat)
    ∧ (updateUserAgent
        ⟨fun _ => { username := "alice", accessToken := "t", userAgent := none,
                    proxy := none }, 1⟩ 0 "ua2").store 0
      = { username := "alice", accessToken := "t", userAgent := some "ua2",
          proxy := none } :=
  ⟨by norm_num,
   (kickSender_getUserConfig_frame
      ⟨fun _ => { username := "alice", accessToken := "t", userAgent := none,
                  proxy := none }, 1⟩ 0 (by norm_num) id "ua2").2.2⟩

/-! ### AccountParser text format (src/unnamed/part_003)

`exportToText` (lines 143-155) and `parseTextFormat` (lines 66-93) work on
plain strings; strings are modelled as `List Char` so that `split`, `trim`
and `join` admit inductive reasoning.  `parseTextFormat` additionally
generates a random `userAgent` for each parsed account (an IO effect); the
embedding returns the `(username, accessToken)` pairs, which is all the
round-trip concerns. -/

/-- JavaScript `String.prototype.split` with a single-character separator. -/
def splitOnChar (c : Char) : List Char → List (List Char)
  | [] => [[]]
  | x :: xs =>
    match splitOnChar c xs with
    | [] => [[]]
    | h :: t => if x = c then [] :: h :: t else (x :: h) :: t

/-- JavaScript `String.prototype.trim`. -/
def trimList (s : List Char) : List Char :=
  ((s.dropWhile Char.isWhitespace).reverse.dropWhile Char.isWhitespace).reverse

/-- JavaScript `Array.prototype.join` with a single-character separator. -/
def joinWith (c : Char) : List (List Char) → List Char
  | [] => []
  | [l] => l
  | l :: ls => l ++ c :: joinWith c ls

/-- The body of `parseTextFormat`'s loop (lines 70-89): trim the line, skip
it unless it contains `'='`, destructure `line.split('=')` into its first
two parts, skip if either is empty (falsy), and keep the trimmed pair. -/
def parseLine (l : List Char) : Option (List Char × List Char) :=
  let line := trimList l
  if '=' ∈ line then
    match splitOnChar '=' line with
    | u :: t :: _ => if u = [] ∨ t = [] then none else some (trimList u, trimList t)
    | _ => none
  else none

/-- `AccountParser.parseTextFormat` (lines 66-93): split on newlines, drop
blank lines, parse each remaining line. -/
def parseTextFormat (content : List Char) : List (List Char × List Char) :=
  ((splitOnChar '\n' content).filter (fun l => !(trimList l).isEmpty)).filterMap parseLine

/-- `AccountParser.exportToText` (lines 143-155):
`users.map(u => username + '=' + accessToken).join('\n') + '\n'`. -/
def exportToText (users : List (List Char × List Char)) : List Char :=
  joinWith '\n' (users.map (fun u => u.1 ++ '=' :: u.2)) ++ ['\n']

lemma splitOnChar_of_not_mem (c : Char) :
    ∀ s : List Char, c ∉ s → splitOnChar c s = [s] := by
  intro s
  induction s with
  | nil => intro _; rfl
  | cons x xs ih =>
    intro hmem
    have hx : x ≠ c := fun h => hmem (h ▸ List.mem_cons_self x xs)
    have hxs : c ∉ xs := fun h => hmem (List.mem_cons_of_mem x h)
    simp [splitOnChar, ih hxs, hx]

lemma splitOnChar_append (c : Char) :
    ∀ s t : List Char, c ∉ s →
      splitOnChar c (s ++ c :: t) = s :: splitOnChar c t := by
  intro s
  induction s with
  | nil =>
    intro t _
    have hne : splitOnChar c t ≠ [] := by
      cases t with
      | nil => simp [splitOnChar]
      | cons y ys =>
        simp only [splitOnChar]
        cases h : splitOnChar c ys with
        | nil => simp
        | cons a as => by_cases hy : y = c <;> simp [hy]
    simp only [List.nil_append, splitOnChar]
    cases h : splitOnChar c t with
    | nil => exact absurd h hne
    | cons a as => simp
  | cons x xs ih =>
    intro t hmem
    have hx : x ≠ c := fun h => hmem (h ▸ List.mem_cons_self x xs)
    have hxs : c ∉ xs := fun h => hmem (List.mem_cons_of_mem x h)
    simp only [List.cons_append, splitOnChar, List.append_eq]
    rw [ih t hxs]
    simp [hx]

lemma splitOnChar_joinWith (c : Char) :
    ∀ ls : List (List Char), ls ≠ [] → (∀ l ∈ ls, c ∉ l) →
      splitOnChar c (joinWith c ls ++ [c]) = ls ++ [[]] := by
  intro ls
  induction ls with
  | nil => intro h; exact absurd rfl h
  | cons l rest ih =>
    intro _ hmem
    cases rest with
    | nil =>
      have : joinWith c [l] = l := rfl
      rw [this, splitOnChar_append c l [] (hmem l (List.mem_cons_self l []))]
      rfl
    | cons l2 rest2 =>
      have hj : joinWith c (l :: l2 :: rest2) = l ++ c :: joinWith c (l2 :: rest2) := rfl
      rw [hj]
      have hassoc : (l ++ c :: joinWith c (l2 :: rest2)) ++ [c]
          = l ++ c :: (joinWith c (l2 :: rest2) ++ [c]) := by simp
      rw [hassoc, splitOnChar_append c l _ (hmem l (List.mem_cons_self l _)),
          ih (by simp) (fun x hx => hmem x (List.mem_cons_of_mem l hx))]
      rfl

lemma dropWhile_eq_self_of_head (p : Char → Bool) (s : List Char)
    (h : ∀ a ∈ s.head?, ¬p a) : s.dropWhile p = s := by
  cases s with
  | nil => rfl
  | cons x xs =>
    have : ¬p x := h x (by simp)
    simp [List.dropWhile_cons, this]

lemma trimList_eq_self (s : List Char)
    (h1 : ∀ a ∈ s.head?, ¬a.isWhitespace)
    (h2 : ∀ a ∈ s.getLast?, ¬a.isWhitespace) : trimList s = s := by
  unfold trimList
  rw [dropWhile_eq_self_of_head _ s h1,
      dropWhile_eq_self_of_head _ s.reverse (by rwa [List.head?_reverse]),
      List.reverse_reverse]

lemma filterMap_eq_self_of {α : Type} (g : α → Option α) :
    ∀ l : List α, (∀ a ∈ l, g a = some a) → l.filterMap g = l := by
  intro l
  induction l with
  | nil => intro _; rfl
  | cons x xs ih =>
    intro h
    rw [List.filterMap_cons, h x (List.mem_cons_self x xs),
        ih (fun a ha => h a (List.mem_cons_of_mem x ha))]

/-- The conditions C9 puts on one account: `username` and `accessToken`
non-empty, free of `'='` and newlines, and with no surrounding whitespace
(first and last characters not whitespace). -/
def GoodAccount (p : List Char × List Char) : Prop :=
  p.1 ≠ [] ∧ p.2 ≠ [] ∧ '=' ∉ p.1 ∧ '=' ∉ p.2 ∧ '\n' ∉ p.1 ∧ '\n' ∉ p.2
  ∧ (∀ a ∈ p.1.head?, ¬a.isWhitespace) ∧ (∀ a ∈ p.1.getLast?, ¬a.isWhitespace)
  ∧ (∀ a ∈ p.2.head?, ¬a.isWhitespace) ∧ (∀ a ∈ p.2.getLast?, ¬a.isWhitespace)

lemma trim_line_eq (u t : List Char) (h : GoodAccount (u, t)) :
    trimList (u ++ '=' :: t) = u ++ '=' :: t := by
  obtain ⟨hu, ht, -, -, -, -, hwu1, hwu2, hwt1, hwt2⟩ := h
  have hhead : (u ++ '=' :: t).head? = u.head? := by
    cases u with
    | nil => exact absurd rfl hu
    | cons a as => rfl
  have hlast : (u ++ '=' :: t).getLast? = t.getLast? := by
    cases t with
    | nil => exact absurd rfl ht
    | cons b bs =>
      obtain ⟨a, ha⟩ := Option.isSome_iff_exists.mp
        (List.getLast?_isSome.mpr (by simp : (b :: bs) ≠ []))
      rw [List.getLast?_append, List.getLast?_cons_cons, ha]
      rfl
  exact trimList_eq_self _ (by rw [hhead]; exact hwu1) (by rw [hlast]; exact hwt2)

lemma parseLine_roundtrip (u t : List Char) (h : GoodAccount (u, t)) :
    parseLine (u ++ '=' :: t) = some (u, t) := by
  have hline := trim_line_eq u t h
  obtain ⟨hu, ht, hequ, heqt, -, -, hwu1, hwu2, hwt1, hwt2⟩ := h
  have hsplit : splitOnChar '=' (u ++ '=' :: t) = [u, t] := by
    rw [splitOnChar_append '=' u t hequ, splitOnChar_of_not_mem '=' t heqt]
  simp only [parseLine, hline, hsplit]
  rw [if_pos (by simp)]
  show (if u = [] ∨ t = [] then none else some (trimList u, trimList t)) = some (u, t)
  rw [if_neg (by simp [hu, ht]), trimList_eq_self u hwu1 hwu2,
      trimList_eq_self t hwt1 hwt2]

/-- C9: for every list of accounts whose usernames and tokens are non-empty,
contain no `'='` and no newline, and carry no surrounding whitespace,
parsing the text produced by `exportToText` with `parseTextFormat` yields
the same ordered `(username, accessToken)` pairs (the randomly generated
user agents are outside the round-trip). -/
theorem accountParser_text_roundtrip (users : List (List Char × List Char))
    (h : ∀ p ∈ users, GoodAccount p) :
    parseTextFormat (exportToText users) = users := by
  by_cases husers : users = []
  · subst husers; rfl
  · have hlines : ∀ l ∈ users.map (fun u => u.1 ++ '=' :: u.2), '\n' ∉ l := by
      intro l hl
      obtain ⟨p, hp, rfl⟩ := List.mem_map.mp hl
      obtain ⟨-, -, -, -, hn1, hn2, -⟩ := h p hp
      intro hmem
      rcases List.mem_append.mp hmem with hc | hc
      · exact hn1 hc
      · rcases List.mem_cons.mp hc with hc | hc
        · exact absurd hc.symm (by decide)
        · exact hn2 hc
    rw [parseTextFormat, exportToText,
        splitOnChar_joinWith '\n' _ (by simpa using husers) hlines,
        List.filter_append]
    have hfilter0 : List.filter (fun l => !(trimList l).isEmpty) [([] : List Char)]
        = [] := rfl
    have hfilter1 : (users.map (fun u => u.1 ++ '=' :: u.2)).filter
        (fun l => !(trimList l).isEmpty) = users.map (fun u => u.1 ++ '=' :: u.2) := by
      rw [List.filter_eq_self]
      intro l hl
      obtain ⟨p, hp, rfl⟩ := List.mem_map.mp hl
      rw [trim_line_eq p.1 p.2 (h p hp)]
      obtain ⟨h1, -⟩ := h p hp
      cases hp1 : p.1 with
      | nil => exact absurd hp1 h1
      | cons a as => simp
    rw [hfilter0, hfilter1, List.append_nil, List.filterMap_map]
    exact filterMap_eq_self_of _ users (fun p hp => parseLine_roundtrip p.1 p.2 (h p hp))

instance optionBAllDecidable {P : Char → Prop} [DecidablePred P] (o : Option Char) :
    Decidable (∀ a ∈ o, P a) :=
  match o with
  | none => isTrue (by simp)
  | some x => if h : P x then isTrue (by simpa using h) else isFalse (by simpa using h)

instance goodAccountDecidable (p : List Char × List Char) : Decidable (GoodAccount p) := by
  unfold GoodAccount
  infer_instance

/-- Witness for C9: two well-formed accounts survive the export/parse
round-trip. -/
theorem accountParser_text_roundtrip_witness :
    (∀ p ∈ ([(['a', 'l'], ['t', '1']), (['b'], ['t', '2'])] :
        List (List Char × List Char)), GoodAccount p)
    ∧ parseTextFormat (exportToText [(['a', 'l'], ['t', '1']), (['b'], ['t', '2'])])
      = [(['a', 'l'], ['t', '1']), (['b'], ['t', '2'])] :=
  ⟨by decide, accountParser_text_roundtrip _ (by decide)⟩

/-! ### The broadcast dispatch engine (src/unnamed/part_001)

`broadcastMessageConcurrent` (lines 433-560) and `broadcastMessageWithSlots`
(lines 652-814) share one dispatch loop: the identities are split into
`concurrency` lanes by `ordinal mod concurrency` (lines 470-473 / 695-698),
each lane walks its chunk, checking `stopCallback()` before each item and
`break`-ing when it fires, otherwise writing one `SendMessageResponse` into
`results[originalIndex]` and bumping `sent`/`failed`.

The lanes are async: they interleave at their await points, and within one
item the stop check, the awaited send, and the synchronous block of
mutations (results write, counter update) execute atomically with respect
to the other lanes (single-threaded event loop).  The embedding makes one
item's processing a step of a step function on a configuration; the
schedule (which lane steps next) and the environment (what the stop
callback returns at each moment and how each identity's send resolves) are
arbitrary, quantifying over every interleaving and outcome.  Pacing delays,
progress callbacks and the batched logging mutate no shared dispatch state
and are not modelled. -/

structure StreamerConfig where
  nickname : String
  chatId : String
deriving DecidableEq, Repr

/-- `BroadcastOptions` from src/types/interfaces.ts lines 24-31; the
defaults are the destructuring defaults `concurrency = 5, delayMs = 200`
of lines 455 / 679. -/
structure BroadcastOptions where
  concurrency : Nat := 5
  delayMs : Nat := 200
  randomDelay : Option (Nat × Nat) := none
deriving DecidableEq, Repr

/-- How one identity's `sender.sendMessage(...)` await resolves (or the
`this.senders.get(username)` lookup misses, possible when a file-watcher
reload clears the map mid-run).  `thrown aborted txt` is a rejection;
`aborted` models `error.name === 'AbortError' || error.message?.includes('aborted')`. -/
inductive Outcome where
  | missing : Outcome
  | result : SendMessageResponse → Outcome
  | thrown : Bool → String → Outcome
deriving DecidableEq, Repr

/-- The environment of one run: the value `stopCallback()` returns when
polled at a given step count, and each ordinal's transport outcome (each
ordinal is attempted at most once). -/
structure BroadcastEnv where
  stop : Nat → Bool
  outcome : Nat → Outcome

/-- The lane partition of lines 470-473 / 695-698:
`userChunks[i % concurrency].push({username: usernames[i], originalIndex: i})`
for `i` from `0` to `totalUsers - 1`, starting from `concurrency` empty
chunks.  Chunks hold the original ordinals. -/
def mkChunks (c N : Nat) : List (List Nat) :=
  (List.range N).foldl
    (fun chunks i => chunks.set (i % c) (chunks.getD (i % c) [] ++ [i]))
    (List.replicate c [])

/-- The chunk-building loop as it actually executes, with its failure mode:
`userChunks[i % concurrency]` is `undefined` whenever the index falls
outside the chunk array (in JavaScript `i % 0` is `NaN`, so with
`concurrency = 0` every iteration indexes out of the array, which has
length 0), and `.push` on `undefined` throws a TypeError that rejects the
whole broadcast promise before any lane is created.  For `concurrency ≥ 1`
the index `i % c` is always in range and this agrees with `mkChunks`. -/
def mkChunksE (c : Nat) : Nat → Except String (List (List Nat))
  | 0 => .ok (List.replicate c [])
  | N + 1 =>
    match mkChunksE c N with
    | .error e => .error e
    | .ok chunks =>
      if N % c < chunks.length then
        .ok (chunks.set (N % c) (chunks.getD (N % c) [] ++ [N]))
      else
        .error "TypeError: Cannot read properties of undefined (reading 'push')"

/-- The ordinals lane `l` is assigned: those `i < N` with `i % c = l`, in
increasing order. -/
def chunkOf (c N l : Nat) : List Nat :=
  (List.range N).filter (fun i => i % c = l)

/-- The shared state of one broadcast run: the per-lane remaining chunks,
the shared results array (`none` = slot never assigned), the shared
counters and stop flag, plus two observation traces — `writes` records each
`results[originalIndex] = ...` assignment as `(lane, ordinal)` and `sends`
records each dispatched `sender.sendMessage` as `(ordinal, message)`. -/
structure Cfg where
  lanes : List (List Nat)
  results : List (Option SendMessageResponse)
  sent : Nat
  failed : Nat
  stopped : Bool
  writes : List (Nat × Nat)
  sends : List (Nat × String)
  clock : Nat
deriving DecidableEq, Repr

/-- The shared-state mutations at the end of one item's processing
(lines 485-519 / 708-748): record the response at the item's original
ordinal, bump `sent` or `failed`, advance the lane past the item. -/
def processItem (cfg : Cfg) (l ord : Nat) (rest : List Nat)
    (resp : SendMessageResponse) (send : List (Nat × String)) : Cfg :=
  { cfg with
    lanes := cfg.lanes.set l rest
    results := cfg.results.set ord (some resp)
    sent := if resp.success then cfg.sent + 1 else cfg.sent
    failed := if resp.success then cfg.failed else cfg.failed + 1
    writes := cfg.writes ++ [(l, ord)]
    sends := cfg.sends ++ send
    clock := cfg.clock + 1 }

/-- One step of lane `l` (the loop body of lines 476-548 / 701-777):
if the lane is exhausted nothing happens; otherwise the lane polls
`stopCallback()` — when it fires the lane sets `stopped` and `break`s
(its remaining items are abandoned) — else it processes its next item:
a missing sender yields a `Sender not found` failure without a send; a
resolved send stores the response and counts it by `result.success`; a
rejected send is caught and stored as a failure whose text depends on
whether the rejection was an abort. -/
def step (producer : Nat → String) (usernames : List String) (env : BroadcastEnv)
    (cfg : Cfg) (l : Nat) : Cfg :=
  match cfg.lanes.getD l [] with
  | [] => { cfg with clock := cfg.clock + 1 }
  | ord :: rest =>
    if env.stop cfg.clock then
      { cfg with lanes := cfg.lanes.set l [], stopped := true, clock := cfg.clock + 1 }
    else
      match env.outcome ord with
      | .missing =>
        processItem cfg l ord rest
          { success := false
            error := some ("User: " ++ usernames.getD ord "" ++ " - Sender not found") } []
      | .result r => processItem cfg l ord rest r [(ord, producer ord)]
      | .thrown aborted txt =>
        processItem cfg l ord rest
          { success := false
            error := some ("User: " ++ usernames.getD ord "" ++ " - "
              ++ (if aborted then "Request cancelled (broadcast stopped)"
                  else "Unexpected error: " ++ txt)) } [(ord, producer ord)]

/-- The state when the lanes are about to start: chunked lanes, no result
slot assigned, zero counters (lines 456-473 / 680-698). -/
def initCfg (c N : Nat) : Cfg :=
  { lanes := mkChunks c N, results := List.replicate N none, sent := 0, failed := 0,
    stopped := false, writes := [], sends := [], clock := 0 }

/-- Run a schedule of lane steps from a configuration. -/
def runFrom (producer : Nat → String) (usernames : List String) (env : BroadcastEnv)
    (cfg : Cfg) (sched : List Nat) : Cfg :=
  sched.foldl (step producer usernames env) cfg

/-- A whole broadcast run: `N` identities, `c` lanes, an arbitrary
interleaving `sched` of lane steps. -/
def run (producer : Nat → String) (usernames : List String) (env : BroadcastEnv)
    (sched : List Nat) (c N : Nat) : Cfg :=
  runFrom producer usernames env (initCfg c N) sched

/-- `await Promise.all(workerPromises)` has resolved: every lane exhausted
(or abandoned by its `break`). -/
def isDone (cfg : Cfg) : Bool := cfg.lanes.all List.isEmpty

/-- The message the slot broadcast sends for the identity at global ordinal
`k` (lines 719-720): `slotWords[originalIndex % slotWords.length]` appended
to the base word with a space. -/
def slotMessage (baseWord : String) (slotWords : List String) (k : Nat) : String :=
  baseWord ++ " " ++ slotWords.getD (k % slotWords.length) ""

/-- The ordinals written by lane `l`, in write order. -/
def writesOfLane (l : Nat) (ws : List (Nat × Nat)) : List Nat :=
  (ws.filter (fun w => w.1 == l)).map Prod.snd

/-- All ordinals written so far, in write order. -/
def writtenOrds (ws : List (Nat × Nat)) : List Nat := ws.map Prod.snd

lemma getD_set_of_lt {α : Type} (l : List α) (i j : Nat) (v d : α) (h : i < l.length) :
    (l.set i v).getD j d = if i = j then v else l.getD j d := by
  rw [List.getD_eq_getElem?_getD, List.getElem?_set, List.getD_eq_getElem?_getD]
  by_cases hij : i = j
  · subst hij; simp [h]
  · simp [hij]

lemma getD_eq_of_isDone (cfg : Cfg) (hdone : isDone cfg = true) (l : Nat) :
    cfg.lanes.getD l [] = [] := by
  unfold isDone at hdone
  rw [List.all_eq_true] at hdone
  rw [List.getD_eq_getElem?_getD]
  cases hmem : cfg.lanes[l]? with
  | none => rfl
  | some lane =>
    have : lane.isEmpty = true := hdone lane (List.getElem?_mem hmem)
    simpa [List.isEmpty_iff] using this

lemma mkChunks_eq (c N : Nat) (hc : 0 < c) :
    mkChunks c N = (List.range c).map (fun l => chunkOf c N l) := by
  induction N with
  | zero =>
    apply List.ext_getElem
    · simp [mkChunks]
    · intro n h1 h2
      simp [mkChunks, chunkOf] at *
  | succ N ih =>
    have hstep : mkChunks c (N + 1)
        = (mkChunks c N).set (N % c) ((mkChunks c N).getD (N % c) [] ++ [N]) := by
      rw [mkChunks, List.range_succ, List.foldl_append]
      rfl
    have hm : N % c < c := Nat.mod_lt _ hc
    have hgetD : ((List.range c).map (fun l => chunkOf c N l)).getD (N % c) [] = chunkOf c N (N % c) := by
      rw [List.getD_eq_getElem?_getD,
          List.getElem?_eq_getElem (by simpa using hm)]
      simp
    rw [hstep, ih, hgetD]
    apply List.ext_getElem
    · simp
    · intro n h1 h2
      have hn : n < c := by simpa using h2
      rw [List.getElem_set]
      have hrhs : ((List.range c).map (fun l => chunkOf c (N + 1) l))[n]
          = chunkOf c (N + 1) n := by simp
      rw [hrhs]
      have hchunk : chunkOf c (N + 1) n
          = chunkOf c N n ++ List.filter (fun i => decide (i % c = n)) [N] := by
        rw [chunkOf, List.range_succ, List.filter_append]
        rfl
      by_cases hcase : N % c = n
      · subst hcase
        rw [if_pos rfl, hchunk]
        simp
      · rw [if_neg hcase, hchunk]
        have : List.filter (fun i => decide (i % c = n)) [N] = [] := by
          simp [hcase]
        rw [this, List.append_nil]
        simp

lemma mkChunks_length (c N : Nat) (hc : 0 < c) : (mkChunks c N).length = c := by
  rw [mkChunks_eq c N hc]; simp

lemma mkChunks_succ (c N : Nat) :
    mkChunks c (N + 1)
      = (mkChunks c N).set (N % c) ((mkChunks c N).getD (N % c) [] ++ [N]) := by
  rw [mkChunks, List.range_succ, List.foldl_append]
  rfl

lemma mkChunksE_pos (c : Nat) (hc : 0 < c) :
    ∀ N, mkChunksE c N = .ok (mkChunks c N) := by
  intro N
  induction N with
  | zero => rfl
  | succ N ih =>
    simp only [mkChunksE]
    rw [ih]
    show (if N % c < (mkChunks c N).length
        then Except.ok ((mkChunks c N).set (N % c) ((mkChunks c N).getD (N % c) [] ++ [N]))
        else Except.error "TypeError: Cannot read properties of undefined (reading 'push')")
      = Except.ok (mkChunks c (N + 1))
    rw [if_pos (by rw [mkChunks_length c N hc]; exact Nat.mod_lt _ hc)]
    rw [mkChunks_succ]

lemma mkChunksE_zero (N : Nat) (hN : 0 < N) :
    mkChunksE 0 N
      = .error "TypeError: Cannot read properties of undefined (reading 'push')" := by
  induction N with
  | zero => omega
  | succ N ih =>
    rcases Nat.eq_zero_or_pos N with h0 | hpos
    · subst h0; rfl
    · simp only [mkChunksE, ih hpos]

lemma mkChunks_getD (c N l : Nat) (hc : 0 < c) (hl : l < c) :
    (mkChunks c N).getD l [] = chunkOf c N l := by
  rw [mkChunks_eq c N hc, List.getD_eq_getElem?_getD,
      List.getElem?_eq_getElem (by simpa using hl)]
  simp

lemma chunkOf_spec (c N l : Nat) : ∀ i ∈ chunkOf c N l, i % c = l ∧ i < N := by
  intro i hi
  rw [chunkOf, List.mem_filter] at hi
  exact ⟨by simpa using hi.2, by simpa using hi.1⟩

lemma mem_chunkOf (c N i : Nat) (h : i < N) : i ∈ chunkOf c N (i % c) := by
  rw [chunkOf, List.mem_filter]
  simp [h]

lemma chunkOf_nodup (c N l : Nat) : (chunkOf c N l).Nodup :=
  (List.nodup_range N).filter _

lemma writesOfLane_append (l : Nat) (ws : List (Nat × Nat)) (w : Nat × Nat) :
    writesOfLane l (ws ++ [w])
      = writesOfLane l ws ++ (if w.1 = l then [w.2] else []) := by
  unfold writesOfLane
  rw [List.filter_append]
  by_cases h : w.1 = l <;> simp [h]

lemma writtenOrds_append (ws : List (Nat × Nat)) (w : Nat × Nat) :
    writtenOrds (ws ++ [w]) = writtenOrds ws ++ [w.2] := by
  simp [writtenOrds]

lemma mem_writtenOrds_of_lane {i l : Nat} {ws : List (Nat × Nat)}
    (h : i ∈ writesOfLane l ws) : i ∈ writtenOrds ws := by
  rw [writesOfLane, List.mem_map] at h
  obtain ⟨w, hw, rfl⟩ := h
  exact List.mem_map.mpr ⟨w, (List.mem_filter.mp hw).1, rfl⟩

lemma written_mem_lane {c i : Nat} {ws : List (Nat × Nat)}
    (hlt : ∀ w ∈ ws, w.1 < c) (h : i ∈ writtenOrds ws) :
    ∃ l, l < c ∧ i ∈ writesOfLane l ws := by
  rw [writtenOrds, List.mem_map] at h
  obtain ⟨w, hw, rfl⟩ := h
  refine ⟨w.1, hlt w hw, ?_⟩
  rw [writesOfLane, List.mem_map]
  exact ⟨w, List.mem_filter.mpr ⟨hw, by simp⟩, rfl⟩

/-- The run invariant: lanes and results keep their lengths; for each lane
the ordinals it has written, followed by its pending ordinals, form an
initial segment of its statically assigned chunk (with `rest` the ordinals
abandoned by a stop `break`); every write is tagged with a real lane; no
ordinal is written twice; a result slot is assigned exactly when its
ordinal has been written; the counters add up to the number of writes; and
while no lane has observed the stop signal nothing has been abandoned. -/
structure Inv (c N : Nat) (cfg : Cfg) : Prop where
  lanes_len : cfg.lanes.length = c
  results_len : cfg.results.length = N
  lane_decomp : ∀ l, l < c →
    ∃ rest, writesOfLane l cfg.writes ++ (cfg.lanes.getD l [] ++ rest) = chunkOf c N l
  lanes_lt : ∀ w ∈ cfg.writes, w.1 < c
  written_nodup : (writtenOrds cfg.writes).Nodup
  results_written : ∀ i, i < N →
    (((cfg.results.getD i none).isSome = true) ↔ i ∈ writtenOrds cfg.writes)
  counts : cfg.sent + cfg.failed = cfg.writes.length
  live_decomp : cfg.stopped = false → ∀ l, l < c →
    writesOfLane l cfg.writes ++ cfg.lanes.getD l [] = chunkOf c N l

lemma inv_init (c N : Nat) (hc : 0 < c) : Inv c N (initCfg c N) := by
  refine ⟨mkChunks_length c N hc, by simp [initCfg], ?_, by simp [initCfg], by
    simp [initCfg, writtenOrds], ?_, by simp [initCfg], ?_⟩
  · intro l hl
    refine ⟨[], ?_⟩
    simp only [initCfg, mkChunks_getD c N l hc hl]
    simp [writesOfLane]
  · intro i hi
    simp [initCfg, writtenOrds, List.getD_eq_getElem?_getD,
      List.getElem?_replicate, hi]
  · intro _ l hl
    simp only [initCfg, mkChunks_getD c N l hc hl]
    simp [writesOfLane]

lemma inv_processItem {c N : Nat} {cfg : Cfg} (hInv : Inv c N cfg)
    {l ord : Nat} {rest : List Nat} (hl : cfg.lanes.getD l [] = ord :: rest)
    (hlc : l < c) (resp : SendMessageResponse) (send : List (Nat × String)) :
    Inv c N (processItem cfg l ord rest resp send) := by
  obtain ⟨restC, hchunk⟩ := hInv.lane_decomp l hlc
  rw [hl] at hchunk
  have hord_chunk : ord ∈ chunkOf c N l := by
    rw [← hchunk]; simp
  obtain ⟨hmod, hordN⟩ := chunkOf_spec c N l ord hord_chunk
  have hord_unwritten : ord ∉ writtenOrds cfg.writes := by
    intro hmem
    obtain ⟨la, hla, hwla⟩ := written_mem_lane hInv.lanes_lt hmem
    obtain ⟨restC2, hchunk2⟩ := hInv.lane_decomp la hla
    have hordla : ord ∈ chunkOf c N la := by
      rw [← hchunk2]
      exact List.mem_append.mpr (Or.inl hwla)
    have : la = l := by
      have := (chunkOf_spec c N la ord hordla).1
      omega
    subst this
    have hnd := chunkOf_nodup c N la
    rw [← hchunk] at hnd
    have hdisj := (List.nodup_append.mp hnd).2.2
    exact hdisj hwla (by simp)
  have hlen : l < cfg.lanes.length := by rw [hInv.lanes_len]; exact hlc
  have hreslen : ord < cfg.results.length := by rw [hInv.results_len]; exact hordN
  refine ⟨?_, ?_, ?_, ?_, ?_, ?_, ?_, ?_⟩
  · simp [processItem, hInv.lanes_len]
  · simp [processItem, hInv.results_len]
  · intro l2 hl2
    by_cases hll : l2 = l
    · subst hll
      refine ⟨restC, ?_⟩
      simp only [processItem]
      rw [writesOfLane_append, if_pos rfl,
          getD_set_of_lt _ _ _ _ _ hlen, if_pos rfl, ← hchunk]
      simp
    · obtain ⟨r2, hr2⟩ := hInv.lane_decomp l2 hl2
      refine ⟨r2, ?_⟩
      simp only [processItem]
      rw [writesOfLane_append, if_neg (by simpa using Ne.symm hll),
          getD_set_of_lt _ _ _ _ _ hlen, if_neg (by simpa using Ne.symm hll)]
      simpa using hr2
  · intro w hw
    simp only [processItem] at hw
    rcases List.mem_append.mp hw with h | h
    · exact hInv.lanes_lt w h
    · simp at h; subst h; exact hlc
  · simp only [processItem]
    rw [writtenOrds_append]
    simp [List.nodup_append, hInv.written_nodup, hord_unwritten]
  · intro i hi
    simp only [processItem]
    rw [writtenOrds_append, getD_set_of_lt _ _ _ _ _ hreslen]
    by_cases hio : ord = i
    · subst hio
      simp
    · rw [if_neg hio]
      rw [hInv.results_written i hi]
      simp [Ne.symm hio, fun h : i = ord => hio h.symm]
  · have hcounts := hInv.counts
    simp only [processItem, List.length_append, List.length_cons, List.length_nil]
    cases hsucc : resp.success <;> simp [hsucc] <;> omega
  · intro hstop l2 hl2
    simp only [processItem] at hstop ⊢
    have hlive := hInv.live_decomp hstop
    by_cases hll : l2 = l
    · subst hll
      rw [writesOfLane_append, if_pos rfl,
          getD_set_of_lt _ _ _ _ _ hlen, if_pos rfl]
      have := hlive l2 hl2
      rw [hl] at this
      rw [← this]
      simp
    · rw [writesOfLane_append, if_neg (by simpa using Ne.symm hll),
          getD_set_of_lt _ _ _ _ _ hlen, if_neg (by simpa using Ne.symm hll)]
      simpa using hlive l2 hl2

lemma step_nil {cfg : Cfg} {l : Nat} (P : Nat → String) (us : List String)
    (env : BroadcastEnv) (h : cfg.lanes.getD l [] = []) :
    step P us env cfg l = { cfg with clock := cfg.clock + 1 } := by
  unfold step; rw [h]

lemma step_stop {cfg : Cfg} {l ord : Nat} {rest : List Nat} (P : Nat → String)
    (us : List String) (env : BroadcastEnv)
    (h : cfg.lanes.getD l [] = ord :: rest) (hs : env.stop cfg.clock = true) :
    step P us env cfg l
      = { cfg with
          lanes := cfg.lanes.set l []
          stopped := true
          clock := cfg.clock + 1 } := by
  unfold step; rw [h]; simp [hs]

lemma step_go {cfg : Cfg} {l ord : Nat} {rest : List Nat} (P : Nat → String)
    (us : List String) (env : BroadcastEnv)
    (h : cfg.lanes.getD l [] = ord :: rest) (hs : env.stop cfg.clock = false) :
    step P us env cfg l
      = match env.outcome ord with
        | .missing =>
          processItem cfg l ord rest
            { success := false
              error := some ("User: " ++ us.getD ord "" ++ " - Sender not found") } []
        | .result r => processItem cfg l ord rest r [(ord, P ord)]
        | .thrown aborted txt =>
          processItem cfg l ord rest
            { success := false
              error := some ("User: " ++ us.getD ord "" ++ " - "
                ++ (if aborted then "Request cancelled (broadcast stopped)"
                    else "Unexpected error: " ++ txt)) } [(ord, P ord)] := by
  unfold step; rw [h]; simp [hs]

lemma inv_step {c N : Nat} {cfg : Cfg} (hc : 0 < c) (hInv : Inv c N cfg)
    (P : Nat → String) (us : List String) (env : BroadcastEnv) (l : Nat) :
    Inv c N (step P us env cfg l) := by
  cases hl : cfg.lanes.getD l [] with
  | nil =>
    rw [step_nil P us env hl]
    exact ⟨hInv.lanes_len, hInv.results_len, hInv.lane_decomp, hInv.lanes_lt,
      hInv.written_nodup, hInv.results_written, hInv.counts, hInv.live_decomp⟩
  | cons ord rest =>
    have hlc : l < c := by
      by_contra h
      have hnone : cfg.lanes[l]? = none := by
        rw [List.getElem?_eq_none]
        rw [hInv.lanes_len]
        omega
      rw [List.getD_eq_getElem?_getD, hnone] at hl
      simp at hl
    have hlen : l < cfg.lanes.length := by rw [hInv.lanes_len]; exact hlc
    by_cases hstop : env.stop cfg.clock
    · rw [step_stop P us env hl hstop]
      obtain ⟨restC, hchunk⟩ := hInv.lane_decomp l hlc
      rw [hl] at hchunk
      refine ⟨by simp [hInv.lanes_len], hInv.results_len, ?_, hInv.lanes_lt,
        hInv.written_nodup, hInv.results_written, hInv.counts, fun h => by simp at h⟩
      intro l2 hl2
      by_cases hll : l2 = l
      · subst hll
        refine ⟨(ord :: rest) ++ restC, ?_⟩
        rw [getD_set_of_lt _ _ _ _ _ hlen, if_pos rfl]
        simpa using hchunk
      · obtain ⟨r2, hr2⟩ := hInv.lane_decomp l2 hl2
        refine ⟨r2, ?_⟩
        rw [getD_set_of_lt _ _ _ _ _ hlen, if_neg (by simpa using Ne.symm hll)]
        exact hr2
    · rw [step_go P us env hl (by simpa using hstop)]
      cases env.outcome ord with
      | missing => exact inv_processItem hInv hl hlc _ _
      | result r => exact inv_processItem hInv hl hlc _ _
      | thrown aborted txt => exact inv_processItem hInv hl hlc _ _

lemma inv_runFrom {c N : Nat} (hc : 0 < c) (P : Nat → String) (us : List String)
    (env : BroadcastEnv) (sched : List Nat) :
    ∀ cfg : Cfg, Inv c N cfg → Inv c N (runFrom P us env cfg sched) := by
  induction sched with
  | nil => intro cfg h; exact h
  | cons l rest ih =>
    intro cfg h
    exact ih _ (inv_step hc h P us env l)

lemma inv_run {c N : Nat} (hc : 0 < c) (P : Nat → String) (us : List String)
    (env : BroadcastEnv) (sched : List Nat) :
    Inv c N (run P us env sched c N) :=
  inv_runFrom hc P us env sched _ (inv_init c N hc)

lemma written_eq_range {c N : Nat} {cfg : Cfg} (hc : 0 < c) (hInv : Inv c N cfg)
    (hdone : isDone cfg = true) (hstop : cfg.stopped = false) :
    cfg.writes.length = N ∧ ∀ i, i < N → i ∈ writtenOrds cfg.writes := by
  have hlanes : ∀ l, l < c → cfg.lanes.getD l [] = [] :=
    fun l _ => getD_eq_of_isDone cfg hdone l
  have hfull : ∀ l, l < c → writesOfLane l cfg.writes = chunkOf c N l := by
    intro l hl
    have h := hInv.live_decomp hstop l hl
    rw [hlanes l hl, List.append_nil] at h
    exact h
  have sub2 : ∀ i, i < N → i ∈ writtenOrds cfg.writes := by
    intro i hi
    have hm : i % c < c := Nat.mod_lt _ hc
    have : i ∈ writesOfLane (i % c) cfg.writes := by
      rw [hfull _ hm]; exact mem_chunkOf c N i hi
    exact mem_writtenOrds_of_lane this
  have sub1 : ∀ i ∈ writtenOrds cfg.writes, i < N := by
    intro i hmem
    obtain ⟨la, hla, hwla⟩ := written_mem_lane hInv.lanes_lt hmem
    obtain ⟨r2, hr2⟩ := hInv.lane_decomp la hla
    have : i ∈ chunkOf c N la := by
      rw [← hr2]; exact List.mem_append.mpr (Or.inl hwla)
    exact (chunkOf_spec c N la i this).2
  have h1 := (List.subperm_of_subset hInv.written_nodup
    (fun i hi => List.mem_range.mpr (sub1 i hi))).length_le
  have h2 := (List.subperm_of_subset (List.nodup_range N)
    (fun i hi => sub2 i (List.mem_range.mp hi))).length_le
  have hlenw : (writtenOrds cfg.writes).length = cfg.writes.length := by
    simp [writtenOrds]
  simp only [List.length_range] at h1 h2
  exact ⟨by omega, sub2⟩

/-- Counterexample for C1: one identity, one lane, the stop signal already
set when the lane polls it.  The run completes with `stopped = true` but
`sent + failed = 0`, not `1`: the skipped identity is neither counted as
failed nor recorded with a `cancelled` result (its slot stays unassigned),
contradicting the claimed `sent + failed == identities.length` accounting
for cancelled runs. -/
theorem broadcast_tally_counterexample :
    (run (fun _ => "m") ["u"]
        ⟨fun _ => true, fun _ => .result { success := true }⟩ [0] 1 1).stopped = true
    ∧ isDone (run (fun _ => "m") ["u"]
        ⟨fun _ => true, fun _ => .result { success := true }⟩ [0] 1 1) = true
    ∧ (run (fun _ => "m") ["u"]
        ⟨fun _ => true, fun _ => .result { success := true }⟩ [0] 1 1).sent
      + (run (fun _ => "m") ["u"]
        ⟨fun _ => true, fun _ => .result { success := true }⟩ [0] 1 1).failed = 0
    ∧ (run (fun _ => "m") ["u"]
        ⟨fun _ => true, fun _ => .result { success := true }⟩ [0] 1 1).results.getD 0 none
      = none :=
  ⟨rfl, rfl, rfl, rfl⟩

/-- C1 amended: in every broadcast run (any interleaving, any outcomes,
any stop-signal timing) the final tally satisfies `sent + failed = number
of identities actually attempted` (one results-array write per attempted
identity); identities skipped after a stop `break` are neither counted nor
recorded.  When the run completes without the stop signal ever being
observed, every identity is attempted, so `sent + failed = N`. -/
theorem broadcast_tally (c N : Nat) (hc : 1 ≤ c) (P : Nat → String)
    (us : List String) (env : BroadcastEnv) (sched : List Nat) :
    (run P us env sched c N).sent + (run P us env sched c N).failed
      = (run P us env sched c N).writes.length
    ∧ ((run P us env sched c N).stopped = false →
       isDone (run P us env sched c N) = true →
       (run P us env sched c N).sent + (run P us env sched c N).failed = N) := by
  have hInv := inv_run hc P us env sched (c := c) (N := N)
  refine ⟨hInv.counts, fun hstop hdone => ?_⟩
  rw [hInv.counts]
  exact (written_eq_range hc hInv hdone hstop).1

/-- Witness for C1 (amended): three identities over two lanes, no stop,
every send succeeding — the completed run tallies `sent + failed = 3`. -/
theorem broadcast_tally_witness :
    (run (fun _ => "m") ["a", "b", "c"]
        ⟨fun _ => false, fun _ => .result { success := true }⟩ [0, 1, 0, 1] 2 3).stopped
      = false
    ∧ isDone (run (fun _ => "m") ["a", "b", "c"]
        ⟨fun _ => false, fun _ => .result { success := true }⟩ [0, 1, 0, 1] 2 3) = true
    ∧ (run (fun _ => "m") ["a", "b", "c"]
        ⟨fun _ => false, fun _ => .result { success := true }⟩ [0, 1, 0, 1] 2 3).sent
      + (run (fun _ => "m") ["a", "b", "c"]
        ⟨fun _ => false, fun _ => .result { success := true }⟩ [0, 1, 0, 1] 2 3).failed
      = 3 :=
  ⟨rfl, rfl,
   (broadcast_tally 2 3 (by norm_num) (fun _ => "m") ["a", "b", "c"]
      ⟨fun _ => false, fun _ => .result { success := true }⟩ [0, 1, 0, 1]).2 rfl rfl⟩

/-- Counterexample for C2: two identities, one lane, stop observed before
the first item.  The run finishes with `stopped = true` but the results
array has both slots unassigned — the unattempted slots are not filled with
a cancellation result, contradicting `perIdentityResults.length ==
identities.length ... no index left unset`. -/
theorem broadcast_results_counterexample :
    isDone (run (fun _ => "m") ["u", "v"]
        ⟨fun _ => true, fun _ => .result { success := true }⟩ [0] 1 2) = true
    ∧ (run (fun _ => "m") ["u", "v"]
        ⟨fun _ => true, fun _ => .result { success := true }⟩ [0] 1 2).stopped = true
    ∧ (run (fun _ => "m") ["u", "v"]
        ⟨fun _ => true, fun _ => .result { success := true }⟩ [0] 1 2).results.getD 0 none
      = none
    ∧ (run (fun _ => "m") ["u", "v"]
        ⟨fun _ => true, fun _ => .result { success := true }⟩ [0] 1 2).results.getD 1 none
      = none :=
  ⟨rfl, rfl, rfl, rfl⟩

/-- C2 amended: in every run the results array keeps length `N`; no index
is ever written twice (in particular no two lanes write the same index — a
write carries its lane tag, and the written ordinals are pairwise
distinct); an index is assigned exactly when its identity was attempted;
and in a run that completes without observing the stop signal every index
is assigned.  When the stop signal fires, the unattempted indices are left
unset rather than filled with a cancellation result. -/
theorem broadcast_results_slots (c N : Nat) (hc : 1 ≤ c) (P : Nat → String)
    (us : List String) (env : BroadcastEnv) (sched : List Nat) :
    (run P us env sched c N).results.length = N
    ∧ (writtenOrds (run P us env sched c N).writes).Nodup
    ∧ (∀ i, i < N →
        (((run P us env sched c N).results.getD i none).isSome = true
          ↔ i ∈ writtenOrds (run P us env sched c N).writes))
    ∧ ((run P us env sched c N).stopped = false →
       isDone (run P us env sched c N) = true →
       ∀ i, i < N → ((run P us env sched c N).results.getD i none).isSome = true) := by
  have hInv := inv_run hc P us env sched (c := c) (N := N)
  refine ⟨hInv.results_len, hInv.written_nodup, hInv.results_written,
    fun hstop hdone i hi => ?_⟩
  rw [hInv.results_written i hi]
  exact (written_eq_range hc hInv hdone hstop).2 i hi

/-- Witness for C2 (amended): in a completed unstopped run both result
slots are assigned. -/
theorem broadcast_results_slots_witness :
    ((run (fun _ => "m") ["u", "v"]
        ⟨fun _ => false, fun _ => .result { success := true }⟩ [0, 0] 1 2).results.getD 0
        none).isSome = true :=
  (broadcast_results_slots 1 2 (by norm_num) (fun _ => "m") ["u", "v"]
    ⟨fun _ => false, fun _ => .result { success := true }⟩ [0, 0]).2.2.2 rfl rfl 0
    (by norm_num)

/-- C3: the lane partition is the static round-robin of the source: the
chunk list assigns ordinal `i` to lane `i mod c`, the lanes hold exactly
the ordinals of their residue class below `N` in strictly increasing
order (so the classes are pairwise disjoint and cover `0..N-1`), every
results-array write performed during any run is tagged with the lane owning
its ordinal (`ordinal mod c = lane`), and the sequence of ordinals each
lane has written is an initial segment of its assigned chunk — each lane
processes its ordinals in increasing original order and writes only its own
fixed slots. -/
theorem broadcast_lane_partition (c N : Nat) (hc : 1 ≤ c) (P : Nat → String)
    (us : List String) (env : BroadcastEnv) (sched : List Nat) :
    mkChunks c N
      = (List.range c).map (fun l => (List.range N).filter (fun i => i % c = l))
    ∧ (∀ i, i < N → i ∈ (mkChunks c N).getD (i % c) [])
    ∧ (∀ l1 l2, l1 < c → l2 < c → l1 ≠ l2 →
        ∀ i, i ∈ chunkOf c N l1 → i ∉ chunkOf c N l2)
    ∧ (∀ l, l < c → List.Pairwise (· < ·) (chunkOf c N l))
    ∧ (∀ w ∈ (run P us env sched c N).writes, w.2 % c = w.1 ∧ w.2 < N)
    ∧ (∀ l, l < c → ∃ tail,
        writesOfLane l (run P us env sched c N).writes ++ tail = chunkOf c N l) := by
  have hInv := inv_run hc P us env sched (c := c) (N := N)
  refine ⟨mkChunks_eq c N hc, ?_, ?_, ?_, ?_, ?_⟩
  · intro i hi
    rw [mkChunks_getD c N (i % c) hc (Nat.mod_lt _ hc)]
    exact mem_chunkOf c N i hi
  · intro l1 l2 hl1 hl2 hne i hi1 hi2
    have := (chunkOf_spec c N l1 i hi1).1
    have := (chunkOf_spec c N l2 i hi2).1
    omega
  · intro l _
    exact (List.pairwise_lt_range N).filter _
  · intro w hw
    have hlw := hInv.lanes_lt w hw
    obtain ⟨r2, hr2⟩ := hInv.lane_decomp w.1 hlw
    have hmem : w.2 ∈ writesOfLane w.1 (run P us env sched c N).writes := by
      rw [writesOfLane, List.mem_map]
      exact ⟨w, List.mem_filter.mpr ⟨hw, by simp⟩, rfl⟩
    have : w.2 ∈ chunkOf c N w.1 := by
      rw [← hr2]; exact List.mem_append.mpr (Or.inl hmem)
    exact ⟨(chunkOf_spec c N w.1 w.2 this).1, (chunkOf_spec c N w.1 w.2 this).2⟩
  · intro l hl
    obtain ⟨r2, hr2⟩ := hInv.lane_decomp l hl
    exact ⟨(run P us env sched c N).lanes.getD l [] ++ r2, hr2⟩

/-- Witness for C3: with two lanes and three identities the round-robin
chunks are `[[0, 2], [1]]`, and every write of a drained run is tagged with
its ordinal's residue. -/
theorem broadcast_lane_partition_witness :
    mkChunks 2 3 = [[0, 2], [1]]
    ∧ (0 : Nat) ∈ (mkChunks 2 3).getD (0 % 2) [] :=
  ⟨rfl,
   (broadcast_lane_partition 2 3 (by norm_num) (fun _ => "m") ["a", "b", "c"]
      ⟨fun _ => false, fun _ => .result { success := true }⟩ [0, 1, 0, 1]).2.1 0
      (by norm_num)⟩

lemma sends_producer (P : Nat → String) (us : List String) (env : BroadcastEnv) :
    ∀ (sched : List Nat) (cfg : Cfg),
      (∀ p ∈ cfg.sends, p.2 = P p.1) →
      ∀ p ∈ (runFrom P us env cfg sched).sends, p.2 = P p.1 := by
  intro sched
  induction sched with
  | nil => intro cfg h; exact h
  | cons l rest ih =>
    intro cfg h
    apply ih
    cases hl : cfg.lanes.getD l [] with
    | nil => rw [step_nil P us env hl]; exact h
    | cons ord r2 =>
      by_cases hstop : env.stop cfg.clock
      · rw [step_stop P us env hl hstop]; exact h
      · rw [step_go P us env hl (by simpa using hstop)]
        cases env.outcome ord with
        | missing =>
          intro p hp
          simp only [processItem, List.append_nil] at hp
          exact h p hp
        | result r =>
          intro p hp
          simp only [processItem] at hp
          rcases List.mem_append.mp hp with h1 | h1
          · exact h p h1
          · simp at h1; subst h1; rfl
        | thrown aborted txt =>
          intro p hp
          simp only [processItem] at hp
          rcases List.mem_append.mp hp with h1 | h1
          · exact h p h1
          · simp at h1; subst h1; rfl

/-- C4: in a slot broadcast every dispatched message is the pure rotation
`baseWord + " " + slotWords[ordinal mod slotWords.length]` of its
identity's global ordinal, for every concurrency, schedule and environment;
consequently two runs under different concurrency settings assign the same
message to the same ordinal. -/
theorem broadcast_slot_rotation (base : String) (slotWords : List String)
    (hsw : slotWords ≠ []) :
    (∀ (c N : Nat) (us : List String) (env : BroadcastEnv) (sched : List Nat),
      ∀ p ∈ (run (slotMessage base slotWords) us env sched c N).sends,
        p.2 = base ++ " " ++ slotWords.getD (p.1 % slotWords.length) "")
    ∧ (∀ (c1 N1 c2 N2 : Nat) (us1 us2 : List String) (env1 env2 : BroadcastEnv)
        (sched1 sched2 : List Nat),
      ∀ p ∈ (run (slotMessage base slotWords) us1 env1 sched1 c1 N1).sends,
      ∀ q ∈ (run (slotMessage base slotWords) us2 env2 sched2 c2 N2).sends,
        p.1 = q.1 → p.2 = q.2) := by
  have hmain : ∀ (c N : Nat) (us : List String) (env : BroadcastEnv)
      (sched : List Nat),
      ∀ p ∈ (run (slotMessage base slotWords) us env sched c N).sends,
        p.2 = base ++ " " ++ slotWords.getD (p.1 % slotWords.length) "" := by
    intro c N us env sched p hp
    have := sends_producer (slotMessage base slotWords) us env sched (initCfg c N)
      (by simp [initCfg]) p hp
    rw [this, slotMessage]
  refine ⟨hmain, ?_⟩
  intro c1 N1 c2 N2 us1 us2 env1 env2 sched1 sched2 p hp q hq hpq
  rw [hmain c1 N1 us1 env1 sched1 p hp, hmain c2 N2 us2 env2 sched2 q hq, hpq]

/-- Witness for C4: a drained one-identity run with slot list
`["x", "y", "z"]` dispatches `"go x"` for ordinal 0. -/
theorem broadcast_slot_rotation_witness :
    (0, "go x") ∈ (run (slotMessage "go" ["x", "y", "z"]) ["u"]
        ⟨fun _ => false, fun _ => .result { success := true }⟩ [0] 1 1).sends
    ∧ "go x" = "go" ++ " " ++ ["x", "y", "z"].getD (0 % 3) "" :=
  ⟨by decide,
   (broadcast_slot_rotation "go" ["x", "y", "z"] (by decide)).1 1 1 ["u"]
      ⟨fun _ => false, fun _ => .result { success := true }⟩ [0] (0, "go x")
      (by decide)⟩

/-- `validateBroadcastWithSlots`: the validation prelude of
`broadcastMessageWithSlots` (part_001 lines 668-676): unknown streamer and
empty slot-word list throw before any chunk is built. -/
def validateBroadcastWithSlots (streamers : List (String × StreamerConfig))
    (nick : String) (slotWords : List String) : Except String String :=
  match streamers.lookup nick with
  | none => .error ("Стример \"" ++ nick ++ "\" не найден")
  | some streamer =>
    if slotWords.isEmpty then .error "Массив слов для ротации пуст"
    else .ok streamer.chatId

/-- `broadcastMessageWithSlots` (part_001 lines 652-814): validate, build
the chunks (which throws a TypeError when `concurrency = 0` and at least
one identity is loaded), then run the lane dispatch with the slot-rotated
message producer.  The `options` record is never validated — only its
`concurrency` shapes the run (the delay fields pace the lanes without
touching shared state, `randomDelay` silently taking precedence when both
are set). -/
def broadcastMessageWithSlots (streamers : List (String × StreamerConfig))
    (nick baseWord : String) (slotWords : List String)
    (options : BroadcastOptions) (usernames : List String)
    (env : BroadcastEnv) (sched : List Nat) : Except String Cfg :=
  match validateBroadcastWithSlots streamers nick slotWords with
  | .error e => .error e
  | .ok _ =>
    match mkChunksE options.concurrency usernames.length with
    | .error e => .error e
    | .ok _ =>
      .ok (run (slotMessage baseWord slotWords) usernames env sched
        options.concurrency usernames.length)

/-- `broadcastMessageConcurrent` (part_001 lines 433-560): validates only
the streamer lookup, builds the chunks (same TypeError for
`concurrency = 0` with identities loaded), then runs the lane dispatch
with the constant message. -/
def broadcastMessageConcurrent (streamers : List (String × StreamerConfig))
    (nick message : String) (options : BroadcastOptions)
    (usernames : List String) (env : BroadcastEnv) (sched : List Nat) :
    Except String Cfg :=
  match streamers.lookup nick with
  | none => .error ("Стример \"" ++ nick ++ "\" не найден")
  | some _ =>
    match mkChunksE options.concurrency usernames.length with
    | .error e => .error e
    | .ok _ =>
      .ok (run (fun _ => message) usernames env sched
        options.concurrency usernames.length)

/-- Counterexample for C8: a `BroadcastOptions` with BOTH a fixed delay and
a `randomDelay` range — invalid according to the claim — is accepted: the
run does not fail, it completes and dispatches a send to the target chat. -/
theorem broadcast_options_not_validated_counterexample :
    Except.map (fun cfg => cfg.sends.length)
      (broadcastMessageWithSlots [("s", ⟨"s", "123"⟩)] "s" "b" ["w"]
        { concurrency := 1, delayMs := 100, randomDelay := some (50, 60) } ["u"]
        ⟨fun _ => false, fun _ => .result { success := true }⟩ [0])
      = .ok 1 := rfl

/-- C8 amended: an unknown target name fails both broadcast entry points
before any lane starts, an empty slot-word list fails
`broadcastMessageWithSlots` before any send is dispatched, and
`concurrency = 0` with at least one identity loaded also fails both entry
points before any send is dispatched — though as an uncaught TypeError
from the chunk-building loop, not an explicit validation (with zero
identities a concurrency-0 run proceeds).  Delay-mode exclusivity however
is not validated: for every options record with `concurrency ≥ 1`,
including one with both a fixed delay and a `randomDelay` range set, a
structurally valid request proceeds to the dispatch loop. -/
theorem broadcast_structural_validation (streamers : List (String × StreamerConfig))
    (nick baseWord message : String) (slotWords : List String)
    (options : BroadcastOptions) (us : List String) (env : BroadcastEnv)
    (sched : List Nat) :
    (streamers.lookup nick = none →
      broadcastMessageWithSlots streamers nick baseWord slotWords options us env sched
        = .error ("Стример \"" ++ nick ++ "\" не найден")
      ∧ broadcastMessageConcurrent streamers nick message options us env sched
        = .error ("Стример \"" ++ nick ++ "\" не найден"))
    ∧ (∀ s, streamers.lookup nick = some s → slotWords = [] →
      broadcastMessageWithSlots streamers nick baseWord slotWords options us env sched
        = .error "Массив слов для ротации пуст")
    ∧ (∀ s, streamers.lookup nick = some s → options.concurrency = 0 → 0 < us.length →
      broadcastMessageConcurrent streamers nick message options us env sched
        = .error "TypeError: Cannot read properties of undefined (reading 'push')"
      ∧ (slotWords ≠ [] →
        broadcastMessageWithSlots streamers nick baseWord slotWords options us env sched
          = .error "TypeError: Cannot read properties of undefined (reading 'push')"))
    ∧ (∀ s, streamers.lookup nick = some s → 1 ≤ options.concurrency →
      broadcastMessageConcurrent streamers nick message options us env sched
        = .ok (run (fun _ => message) us env sched options.concurrency us.length)
      ∧ (slotWords ≠ [] →
        broadcastMessageWithSlots streamers nick baseWord slotWords options us env sched
          = .ok (run (slotMessage baseWord slotWords) us env sched
              options.concurrency us.length))) := by
  refine ⟨?_, ?_, ?_, ?_⟩
  · intro hnone
    constructor
    · rw [broadcastMessageWithSlots, validateBroadcastWithSlots, hnone]
    · rw [broadcastMessageConcurrent, hnone]
  · intro s hsome hempty
    rw [broadcastMessageWithSlots, validateBroadcastWithSlots, hsome, hempty]
    rfl
  · intro s hsome hc0 hus
    constructor
    · rw [broadcastMessageConcurrent, hsome, hc0, mkChunksE_zero us.length hus]
    · intro hne
      rw [broadcastMessageWithSlots, validateBroadcastWithSlots, hsome, hc0,
          mkChunksE_zero us.length hus]
      simp [List.isEmpty_iff, hne]
  · intro s hsome hc1
    constructor
    · rw [broadcastMessageConcurrent, hsome,
          mkChunksE_pos options.concurrency hc1 us.length]
    · intro hne
      rw [broadcastMessageWithSlots, validateBroadcastWithSlots, hsome,
          mkChunksE_pos options.concurrency hc1 us.length]
      simp [List.isEmpty_iff, hne]

/-- Witness for C8 (amended): an unknown streamer, an empty slot list, and
concurrency 0 with one identity each fail before dispatch on concrete
inputs, while concurrency 1 proceeds. -/
theorem broadcast_structural_validation_witness :
    broadcastMessageWithSlots [] "s" "b" ["w"]
        { concurrency := 1, delayMs := 0, randomDelay := none } ["u"]
        ⟨fun _ => false, fun _ => .missing⟩ [0]
      = .error ("Стример \"s\" не найден")
    ∧ broadcastMessageWithSlots [("s", ⟨"s", "123"⟩)] "s" "b" []
        { concurrency := 1, delayMs := 0, randomDelay := none } ["u"]
        ⟨fun _ => false, fun _ => .missing⟩ [0]
      = .error "Массив слов для ротации пуст"
    ∧ broadcastMessageConcurrent [("s", ⟨"s", "123"⟩)] "s" "m"
        { concurrency := 0, delayMs := 0, randomDelay := none } ["u"]
        ⟨fun _ => false, fun _ => .missing⟩ [0]
      = .error "TypeError: Cannot read properties of undefined (reading 'push')" :=
  ⟨((broadcast_structural_validation [] "s" "b" "m" ["w"]
      { concurrency := 1, delayMs := 0, randomDelay := none } ["u"]
      ⟨fun _ => false, fun _ => .missing⟩ [0]).1 rfl).1,
   (broadcast_structural_validation [("s", ⟨"s", "123"⟩)] "s" "b" "m" []
      { concurrency := 1, delayMs := 0, randomDelay := none } ["u"]
      ⟨fun _ => false, fun _ => .missing⟩ [0]).2.1 ⟨"s", "123"⟩ rfl rfl,
   ((broadcast_structural_validation [("s", ⟨"s", "123"⟩)] "s" "b" "m" ["w"]
      { concurrency := 0, delayMs := 0, randomDelay := none } ["u"]
      ⟨fun _ => false, fun _ => .missing⟩ [0]).2.2.1 ⟨"s", "123"⟩ rfl rfl
      (by norm_num)).1⟩

end KickScript
